import Mathlib

/-!
Verification of the CellProfiler metadata-extraction and measurement-export
modules (`cellprofiler/modules/metadata.py` and
`pyCellProfiler/cellprofiler/modules/exporttoexcel.py`) against their
natural-language specification.

The Python code is shallowly embedded: dictionaries become association lists
with Python's insert/overwrite semantics, `re.search` becomes a small
backtracking matcher over a regex AST with named groups, `os.path.split`
is the posix implementation, and the stateful table/file effects become
explicit values.  Collaborator classes that live in the repository but
outside the provided sources (cps.Table, cellprofiler.measurements helpers,
preferences) are modelled from the spec and marked as such.
-/

namespace CP

/-! ## Python dictionaries as association lists

A Python `dict` keeps insertion order; assigning to an existing key
overwrites in place, assigning a fresh key appends.  `dict.update`
assigns every key of the other dict in iteration order. -/

/-- Lookup of a key in an association list (first binding, which for the
dict operations below is also the only binding). -/
def dlookup {α : Type} : List (String × α) → String → Option α
  | [], _ => none
  | p :: rest, k => if p.1 = k then some p.2 else dlookup rest k

/-- Python `k in d`. -/
def dcontains {α : Type} : List (String × α) → String → Bool
  | [], _ => false
  | p :: rest, k => p.1 = k || dcontains rest k

/-- Python `d[k] = v`: overwrite in place if the key exists, else append. -/
def dinsert {α : Type} (d : List (String × α)) (k : String) (v : α) :
    List (String × α) :=
  if dcontains d k then d.map (fun p => if p.1 = k then (k, v) else p)
  else d ++ [(k, v)]

/-- Python `d.update(e)`: assign every binding of `e` into `d` in order. -/
def dupdate {α : Type} (d e : List (String × α)) : List (String × α) :=
  e.foldl (fun acc p => dinsert acc p.1 p.2) d

/-- Python `d.keys()` (in insertion order). -/
def dkeys {α : Type} (d : List (String × α)) : List String := d.map (·.1)

theorem dkeys_nil {α : Type} : dkeys ([] : List (String × α)) = [] := rfl

theorem dkeys_cons {α : Type} (p : String × α) (rest : List (String × α)) :
    dkeys (p :: rest) = p.1 :: dkeys rest := rfl

theorem dlookup_append {α : Type} (d e : List (String × α)) (k : String) :
    dlookup (d ++ e) k =
      match dlookup d k with
      | some v => some v
      | none => dlookup e k := by
  induction d with
  | nil => simp [dlookup]
  | cons p rest ih =>
    by_cases h : p.1 = k <;> simp [dlookup, h, ih]

theorem dlookup_eq_none_of_not_contains {α : Type}
    (d : List (String × α)) (k : String) (h : dcontains d k = false) :
    dlookup d k = none := by
  induction d with
  | nil => rfl
  | cons p rest ih =>
    simp [dcontains] at h
    simp [dlookup, h.1, ih h.2]

theorem dlookup_map_overwrite_self {α : Type} (d : List (String × α))
    (k : String) (v : α) (h : dcontains d k = true) :
    dlookup (d.map (fun p => if p.1 = k then (k, v) else p)) k = some v := by
  induction d with
  | nil => simp [dcontains] at h
  | cons p rest ih =>
    by_cases hp : p.1 = k
    · simp [dlookup, hp]
    · simp [dcontains, hp] at h
      simp [dlookup, hp, ih h]

theorem dlookup_map_overwrite_other {α : Type} (d : List (String × α))
    (k k' : String) (v : α) (h : k' ≠ k) :
    dlookup (d.map (fun p => if p.1 = k then (k, v) else p)) k' =
      dlookup d k' := by
  induction d with
  | nil => rfl
  | cons p rest ih =>
    by_cases hp : p.1 = k
    · have hk : ¬ (k = k') := fun hh => h hh.symm
      have hp' : ¬ (p.1 = k') := fun hh => h (hh ▸ hp : k' = k)
      simp [dlookup, hp, hk, hp', ih]
    · by_cases hp' : p.1 = k'
      · simp [dlookup, hp, hp', h]
      · simp [dlookup, hp, hp', ih]

theorem dlookup_dinsert {α : Type} (d : List (String × α)) (k k' : String)
    (v : α) :
    dlookup (dinsert d k v) k' = if k' = k then some v else dlookup d k' := by
  by_cases hc : dcontains d k
  · rcases eq_or_ne k' k with h | h
    · simp [dinsert, hc, h, dlookup_map_overwrite_self d k v hc]
    · simp [dinsert, hc, h, dlookup_map_overwrite_other d k k' v h]
  · have hc' : dcontains d k = false := by simpa using hc
    rcases eq_or_ne k' k with h | h
    · subst h
      simp [dinsert, hc', dlookup_append,
        dlookup_eq_none_of_not_contains d k' hc', dlookup]
    · simp [dinsert, hc', dlookup_append, h]
      cases hd : dlookup d k' with
      | some w => simp
      | none =>
        simp [dlookup]
        exact fun hh => h hh.symm

theorem dlookup_dupdate_of_not_key {α : Type} (d e : List (String × α))
    (k : String) (h : ∀ p ∈ e, p.1 ≠ k) :
    dlookup (dupdate d e) k = dlookup d k := by
  induction e generalizing d with
  | nil => rfl
  | cons p rest ih =>
    have hp : p.1 ≠ k := h p (List.mem_cons_self _ _)
    have hstep : dupdate d (p :: rest) = dupdate (dinsert d p.1 p.2) rest := rfl
    rw [hstep, ih _ (fun q hq => h q (List.mem_cons_of_mem _ hq)),
      dlookup_dinsert, if_neg (show ¬ k = p.1 from fun hh => hp hh.symm)]

theorem dinsert_of_not_contains {α : Type} (d : List (String × α))
    (k : String) (v : α) (h : dcontains d k = false) :
    dinsert d k v = d ++ [(k, v)] := by
  simp [dinsert, h]

theorem dcontains_append {α : Type} (d e : List (String × α)) (k : String) :
    dcontains (d ++ e) k = (dcontains d k || dcontains e k) := by
  induction d with
  | nil => simp [dcontains]
  | cons p rest ih => simp [dcontains, ih, Bool.or_assoc]

theorem dcontains_iff_mem_keys {α : Type} (d : List (String × α))
    (k : String) : dcontains d k = true ↔ k ∈ dkeys d := by
  induction d with
  | nil => simp [dcontains, dkeys_nil]
  | cons p rest ih =>
    simp only [dcontains, Bool.or_eq_true, decide_eq_true_eq, ih,
      dkeys_cons, List.mem_cons]
    constructor
    · rintro (h | h)
      · exact Or.inl h.symm
      · exact Or.inr h
    · rintro (h | h)
      · exact Or.inl h.symm
      · exact Or.inr h

theorem dlookup_isSome_iff_mem_keys {α : Type} (d : List (String × α))
    (k : String) : (dlookup d k).isSome = true ↔ k ∈ dkeys d := by
  induction d with
  | nil => simp [dlookup, dkeys_nil]
  | cons p rest ih =>
    rcases eq_or_ne p.1 k with h | h
    · subst h
      simp [dlookup, dkeys_cons]
    · have hstep : dlookup (p :: rest) k = dlookup rest k := by
        simp [dlookup, h]
      rw [hstep, ih, dkeys_cons, List.mem_cons]
      constructor
      · exact Or.inr
      · rintro (hh | hh)
        · exact absurd hh.symm h
        · exact hh

theorem dupdate_of_disjoint {α : Type} (e : List (String × α)) :
    ∀ d, (∀ k ∈ dkeys e, dcontains d k = false) → (dkeys e).Nodup →
    dupdate d e = d ++ e := by
  induction e with
  | nil => intro d _ _; simp [dupdate]
  | cons p rest ih =>
    intro d hdis hnd
    rw [dkeys_cons, List.nodup_cons] at hnd
    have hstep : dupdate d (p :: rest) = dupdate (dinsert d p.1 p.2) rest := rfl
    have hfresh : dcontains d p.1 = false := hdis p.1 (by simp [dkeys_cons])
    rw [hstep, dinsert_of_not_contains _ _ _ hfresh]
    have hdis' : ∀ k ∈ dkeys rest, dcontains (d ++ [(p.1, p.2)]) k = false := by
      intro k hk
      have h1 : dcontains d k = false :=
        hdis k (by simp [dkeys_cons]; right; exact hk)
      have h2 : ¬ (p.1 = k) := fun h => hnd.1 (h ▸ hk)
      simp [dcontains_append, h1, dcontains, h2]
    rw [ih _ hdis' hnd.2]
    simp

/-- `dupdate` of an empty dict with a duplicate-free binding list is that
list itself (Python: `dict(e)` when `e` has distinct keys). -/
theorem dupdate_nil {α : Type} (e : List (String × α))
    (hnd : (dkeys e).Nodup) : dupdate [] e = e := by
  simpa using dupdate_of_disjoint e [] (fun k _ => rfl) hnd

theorem dlookup_dupdate_of_key {α : Type} (e : List (String × α)) :
    ∀ d (k : String) (v : α), (dkeys e).Nodup → dlookup e k = some v →
    dlookup (dupdate d e) k = some v := by
  induction e with
  | nil => intro d k v _ h; simp [dlookup] at h
  | cons p rest ih =>
    intro d k v hnd h
    rw [dkeys_cons, List.nodup_cons] at hnd
    have hstep : dupdate d (p :: rest) = dupdate (dinsert d p.1 p.2) rest := rfl
    rw [hstep]
    rcases eq_or_ne p.1 k with hpk | hpk
    · simp [dlookup, hpk] at h
      have hnot : ∀ q ∈ rest, q.1 ≠ k := by
        intro q hq hqk
        apply hnd.1
        rw [hpk, ← hqk]
        exact List.mem_map_of_mem _ hq
      rw [dlookup_dupdate_of_not_key _ _ _ hnot, dlookup_dinsert]
      simp [hpk, h]
    · have hk : dlookup rest k = some v := by
        simpa [dlookup, hpk] using h
      exact ih _ k v hnd.2 hk

/-! ## posix `os.path.split` -/

/-- `p.rfind('/') + 1` over the character list: the position just after the
last slash, `0` when there is none. -/
def lastSlashPos : List Char → Nat
  | [] => 0
  | c :: rest =>
    let r := lastSlashPos rest
    if r = 0 then (if c = '/' then 1 else 0) else r + 1

/-- Python (posix) `os.path.split`: split at the position after the last
slash, then strip trailing slashes from the head unless the head is all
slashes. -/
def pysplitPath (p : String) : String × String :=
  let cs := p.toList
  let i := lastSlashPos cs
  let head := cs.take i
  let tail := cs.drop i
  let head :=
    if head ≠ [] ∧ head.any (fun c => c ≠ '/') then
      (head.reverse.dropWhile (fun c => c = '/')).reverse
    else head
  (⟨head⟩, ⟨tail⟩)

/-! ## Python regular expressions

`re` is an external standard-library collaborator.  We embed the fragment of
its semantics the metadata module exercises: `re.search` (leftmost match,
backtracking with the first alternative preferred, so `x?` = `alt x eps` is
greedy), named capture groups `(?P<name>...)`, and `match.groupdict()`,
which maps **every** named group of the pattern to its last captured text,
or to Python `None` when the group did not participate in the match. -/

inductive Regex : Type where
  | eps : Regex
  | chr : Char → Regex
  | dot : Regex
  | seq : Regex → Regex → Regex
  | alt : Regex → Regex → Regex
  | grp : String → Regex → Regex
deriving Repr

/-- Backtracking matcher in continuation-passing style.  `caps` holds the
named-group captures of the current parse; a group capture records the text
consumed by its body (last capture wins, as in Python). -/
def mtch : Regex → List Char → List (String × String) →
    (List Char → List (String × String) → Option (List (String × String))) →
    Option (List (String × String))
  | .eps, s, caps, k => k s caps
  | .chr c, s, caps, k =>
    match s with
    | [] => none
    | a :: rest => if a = c then k rest caps else none
  | .dot, s, caps, k =>
    match s with
    | [] => none
    | _ :: rest => k rest caps
  | .seq r1 r2, s, caps, k => mtch r1 s caps (fun s1 c1 => mtch r2 s1 c1 k)
  | .alt r1 r2, s, caps, k =>
    match mtch r1 s caps k with
    | some res => some res
    | none => mtch r2 s caps k
  | .grp nm r, s, caps, k =>
    mtch r s caps (fun s1 c1 =>
      k s1 (dinsert c1 nm ⟨s.take (s.length - s1.length)⟩))

/-- `re.search`: try a match at every start position, leftmost first. -/
def searchAux (r : Regex) : List Char → Option (List (String × String))
  | [] => mtch r [] [] (fun _ caps => some caps)
  | s@(_ :: rest) =>
    match mtch r s [] (fun _ caps => some caps) with
    | some caps => some caps
    | none => searchAux r rest

def reSearch (r : Regex) (text : String) : Option (List (String × String)) :=
  searchAux r text.toList

/-- The named groups of a pattern, in order of their opening parentheses
(Python forbids duplicate group names, so this list is duplicate-free for
any pattern accepted by `re.compile`). -/
def collectNames : Regex → List String
  | .eps => []
  | .chr _ => []
  | .dot => []
  | .seq a b => collectNames a ++ collectNames b
  | .alt a b => collectNames a ++ collectNames b
  | .grp nm r => nm :: collectNames r

/-- `match.groupdict()`: one entry per named group of the pattern; `none`
models Python `None` for a group that did not participate. -/
def groupdict (r : Regex) (caps : List (String × String)) :
    List (String × Option String) :=
  (collectNames r).map (fun n => (n, dlookup caps n))

/-! ## The Metadata module (`cellprofiler/modules/metadata.py`) -/

def X_AUTOMATIC_EXTRACTION : String := "Automatic"
def X_MANUAL_EXTRACTION : String := "Manual"
def X_IMPORTED_EXTRACTION : String := "Import metadata"
def XM_FILE_NAME : String := "From file name"
def XM_FOLDER_NAME : String := "From folder name"
def F_ALL_IMAGES : String := "All images"
def F_FILTERED_IMAGES : String := "Images selected using a filter"
def COL_PATH : String := "Path / URL"
def COL_SERIES : String := "Series"
def COL_INDEX : String := "Index"
def COL_CHANNEL : String := "Channel"

/-- A metadata mapping: tag name to value, where the value may be Python
`None` (e.g. a named group that did not participate in a match). -/
abbrev MetaMap := List (String × Option String)

/-- `cellprofiler.pipeline.ImagePlaneDetails`: path plus series / index /
channel and the record's own metadata mapping. -/
structure ImagePlaneDetails where
  path : String
  series : Option String
  index : Option String
  channel : Option String
  metadata : MetaMap

/-- One extraction-method settings group of the Metadata module.  `filter`
models `group.filter.evaluate((NODE_IMAGE_PLANE, modpath, self))`, whose
`Filter` implementation lives outside the provided sources; it returns
`True`, `False` or `None` ("no opinion"), hence `Option Bool`. -/
structure ExtractionGroup where
  extraction_method : String
  source : String
  file_regexp : Regex
  folder_regexp : Regex
  filter_choice : String
  filter : ImagePlaneDetails → Option Bool

/-- `Metadata.manually_extract_metadata`. -/
def manually_extract_metadata (group : ExtractionGroup)
    (ipd : ImagePlaneDetails) : MetaMap :=
  if group.source = XM_FILE_NAME then
    match reSearch group.file_regexp (pysplitPath ipd.path).2 with
    | none => []
    | some caps => groupdict group.file_regexp caps
  else if group.source = XM_FOLDER_NAME then
    match reSearch group.folder_regexp (pysplitPath ipd.path).1 with
    | none => []
    | some caps => groupdict group.folder_regexp caps
  else []

/-- `Metadata.automatically_extract_metadata`: a stub returning `{}`. -/
def automatically_extract_metadata (_group : ExtractionGroup)
    (_ipd : ImagePlaneDetails) : MetaMap := []

/-- `Metadata.import_metadata`: a stub returning `{}`. -/
def import_metadata (_group : ExtractionGroup)
    (_ipd : ImagePlaneDetails) : MetaMap := []

/-- The per-rule loop body of `Metadata.get_ipd_metadata`: the mapping a
single extraction method contributes for a record.  The rule is skipped
(`continue`) exactly when its filter is enabled and the evaluation result
is falsy but not `None` (`if (not match) and match is not None`). -/
def ruleContribution (group : ExtractionGroup) (ipd : ImagePlaneDetails) :
    MetaMap :=
  if group.filter_choice = F_FILTERED_IMAGES ∧ group.filter ipd = some false
  then []
  else if group.extraction_method = X_MANUAL_EXTRACTION then
    manually_extract_metadata group ipd
  else if group.extraction_method = X_AUTOMATIC_EXTRACTION then
    automatically_extract_metadata group ipd
  else if group.extraction_method = X_IMPORTED_EXTRACTION then
    import_metadata group ipd
  else []

/-- `Metadata.get_ipd_metadata`: start from a copy of the record's own
metadata (`m = ipd.metadata.copy()`), then `m.update(...)` with each
extraction method's contribution in configured order; the record itself is
never written. -/
def get_ipd_metadata (extraction_methods : List ExtractionGroup)
    (ipd : ImagePlaneDetails) : MetaMap :=
  extraction_methods.foldl (fun m group => dupdate m (ruleContribution group ipd))
    ipd.metadata

/-! ## Python `sorted` on strings

Python compares strings lexicographically by Unicode code point.  (The
core `String` order does not reduce in the kernel, so we embed the
comparison directly on character lists.) -/

def charListLe : List Char → List Char → Bool
  | [], _ => true
  | _ :: _, [] => false
  | a :: as, b :: bs =>
    if a.val.toNat < b.val.toNat then true
    else if b.val.toNat < a.val.toNat then false
    else charListLe as bs

/-- Python's `<=` on strings (code-point lexicographic). -/
def pyStrLe (a b : String) : Bool := charListLe a.toList b.toList

/-- The order relation used by `sorted` on strings. -/
def pyle (a b : String) : Prop := pyStrLe a b = true

instance : DecidableRel pyle := fun a b => by
  unfold pyle
  infer_instance

theorem charListLe_total (xs ys : List Char) :
    charListLe xs ys = true ∨ charListLe ys xs = true := by
  induction xs generalizing ys with
  | nil => left; rfl
  | cons a as ih =>
    cases ys with
    | nil => right; rfl
    | cons b bs =>
      rcases Nat.lt_trichotomy a.val.toNat b.val.toNat with h | h | h
      · left; simp [charListLe, h]
      · have h' : ¬ a.val.toNat < b.val.toNat := by omega
        have h'' : ¬ b.val.toNat < a.val.toNat := by omega
        rcases ih bs with hc | hc
        · left; simp [charListLe, h', h'', hc]
        · right; simp [charListLe, h', h'', hc]
      · right; simp [charListLe, h]

theorem charListLe_trans {xs ys zs : List Char}
    (h1 : charListLe xs ys = true) (h2 : charListLe ys zs = true) :
    charListLe xs zs = true := by
  induction xs generalizing ys zs with
  | nil => rfl
  | cons a as ih =>
    cases ys with
    | nil => simp [charListLe] at h1
    | cons b bs =>
      cases zs with
      | nil => simp [charListLe] at h2
      | cons c cs =>
        by_cases hab : a.val.toNat < b.val.toNat
        · by_cases hbc : b.val.toNat < c.val.toNat
          · simp [charListLe, show a.val.toNat < c.val.toNat by omega]
          · by_cases hcb : c.val.toNat < b.val.toNat
            · simp [charListLe, hbc, hcb] at h2
            · have : b.val.toNat = c.val.toNat := by omega
              simp [charListLe, show a.val.toNat < c.val.toNat by omega]
        · by_cases hba : b.val.toNat < a.val.toNat
          · simp [charListLe, hab, hba] at h1
          · have hab' : a.val.toNat = b.val.toNat := by omega
            by_cases hbc : b.val.toNat < c.val.toNat
            · simp [charListLe, show a.val.toNat < c.val.toNat by omega]
            · by_cases hcb : c.val.toNat < b.val.toNat
              · simp [charListLe, hbc, hcb] at h2
              · have hbc' : b.val.toNat = c.val.toNat := by omega
                have hac : ¬ a.val.toNat < c.val.toNat := by omega
                have hca : ¬ c.val.toNat < a.val.toNat := by omega
                simp [charListLe, hab, hba] at h1
                simp [charListLe, hbc, hcb] at h2
                simp [charListLe, hac, hca, ih h1 h2]

instance : IsTotal String pyle := ⟨fun a b => charListLe_total _ _⟩

instance : IsTrans String pyle := ⟨fun _ _ _ => charListLe_trans⟩

/-- Python `sorted` on a list of strings (any correct sort yields the same
list for a total order whose ties are identical strings). -/
def pysorted (l : List String) : List String := List.insertionSort pyle l

/-! ## `cps.Table` and `Metadata.update_table`

Modelled from the spec: `cps.Table` belongs to CellProfiler's settings
framework, which is not among the provided sources.  Per the spec, the
MetadataTable is a derived view holding a list of column names and one row
per record; `update_table` rebuilds it from scratch. -/

/-- Modelled from the spec: the table view owned by the Metadata module
(a column-name list and a list of rows of cells, a cell being a string or
Python `None`). -/
@[ext]
structure CPTable where
  columns : List String
  data : List (List (Option String))
deriving DecidableEq

/-- Modelled from the spec: `cps.Table.clear_columns`. -/
def CPTable.clear_columns (t : CPTable) : CPTable := { t with columns := [] }

/-- Modelled from the spec: `cps.Table.clear_rows`. -/
def CPTable.clear_rows (t : CPTable) : CPTable := { t with data := [] }

/-- Modelled from the spec: `cps.Table.insert_column i name`. -/
def CPTable.insert_column (t : CPTable) (i : Nat) (name : String) : CPTable :=
  { t with columns := t.columns.insertIdx i name }

/-- Modelled from the spec: `cps.Table.add_rows columns data` appends the
given rows. -/
def CPTable.add_rows (t : CPTable) (_columns : List String)
    (data : List (List (Option String))) : CPTable :=
  { t with data := t.data ++ data }

/-- Python `metadata.get(column)`: `None` when the key is absent, else the
stored value (itself possibly `None`). -/
def pyget (m : MetaMap) (k : String) : Option String :=
  (dlookup m k).getD none

/-- The tag-key set collected by `Metadata.update_table` (a Python `set`
built by iterating all records' extracted metadata keys). -/
def collectColumns (extraction_methods : List ExtractionGroup)
    (ipds : List ImagePlaneDetails) : List String :=
  (ipds.flatMap (fun ipd => dkeys (get_ipd_metadata extraction_methods ipd))).dedup

/-- `Metadata.update_table`: sorted tag columns after the four fixed ones,
table cleared and rebuilt, one row per record, absent tags rendered as
Python `None` by `metadata.get`. -/
def update_table (extraction_methods : List ExtractionGroup)
    (ipds : List ImagePlaneDetails) (t : CPTable) : CPTable :=
  let columns := [COL_PATH, COL_SERIES, COL_INDEX, COL_CHANNEL] ++
    pysorted (collectColumns extraction_methods ipds)
  let t := t.clear_columns
  let t := t.clear_rows
  let t := columns.enum.foldl (fun t ic => t.insert_column ic.1 ic.2) t
  let data := ipds.map (fun ipd =>
    [some ipd.path, ipd.series, ipd.index, ipd.channel] ++
      (columns.drop 4).map (fun c =>
        pyget (get_ipd_metadata extraction_methods ipd) c))
  t.add_rows columns data

/-! ## Helper lemmas about extraction -/

theorem dlookup_eq_none_iff {α : Type} (e : List (String × α)) (k : String) :
    dlookup e k = none ↔ ∀ p ∈ e, p.1 ≠ k := by
  induction e with
  | nil => simp [dlookup]
  | cons p rest ih =>
    by_cases h : p.1 = k
    · simp [dlookup, h]
    · simp [dlookup, h, ih]

/-- Folding further extraction methods over a mapping leaves untouched every
key to which none of them contributes. -/
theorem dlookup_fold_contrib (groups : List ExtractionGroup)
    (ipd : ImagePlaneDetails) (k : String) :
    ∀ m : MetaMap, (∀ g ∈ groups, dlookup (ruleContribution g ipd) k = none) →
    dlookup (groups.foldl (fun m g => dupdate m (ruleContribution g ipd)) m) k
      = dlookup m k := by
  induction groups with
  | nil => intro m _; rfl
  | cons g rest ih =>
    intro m h
    have hg := h g (List.mem_cons_self _ _)
    have hrest := fun g' hg' => h g' (List.mem_cons_of_mem _ hg')
    have hstep : (g :: rest).foldl
        (fun m g => dupdate m (ruleContribution g ipd)) m =
        rest.foldl (fun m g => dupdate m (ruleContribution g ipd))
          (dupdate m (ruleContribution g ipd)) := rfl
    rw [hstep, ih _ hrest,
      dlookup_dupdate_of_not_key _ _ _ ((dlookup_eq_none_iff _ _).1 hg)]

theorem dkeys_map_pair {α : Type} (l : List String) (f : String → α) :
    dkeys (l.map (fun n => (n, f n))) = l := by
  induction l with
  | nil => rfl
  | cons a as ih => simp [dkeys_cons, ih]

theorem get_ipd_metadata_append (pre post : List ExtractionGroup)
    (ipd : ImagePlaneDetails) :
    get_ipd_metadata (pre ++ post) ipd =
      post.foldl (fun m g => dupdate m (ruleContribution g ipd))
        (get_ipd_metadata pre ipd) := by
  unfold get_ipd_metadata
  exact List.foldl_append _ _ _ _

/-! ## Claim C1 -/

/-- The rule and record refuting C1's "no key at all" clause: the pattern
`a(?P<X>b)?` searched on file name `"a"` matches without group `X`
participating, and `groupdict()` still yields the key `X` (bound to `None`). -/
def c1Group : ExtractionGroup :=
  { extraction_method := X_MANUAL_EXTRACTION, source := XM_FILE_NAME,
    file_regexp := .seq (.chr 'a') (.alt (.grp "X" (.chr 'b')) .eps),
    folder_regexp := .eps, filter_choice := F_ALL_IMAGES,
    filter := fun _ => none }

def c1Ipd : ImagePlaneDetails :=
  { path := "a", series := none, index := none, channel := none,
    metadata := [] }

/-- C1 counterexample: the search succeeds (with the optional named group
`X` not participating), yet the extraction result *does* carry the key
`X`, bound to the null marker — the claim says such a group contributes
no key at all. -/
theorem c1_optional_group_counterexample :
    reSearch c1Group.file_regexp (pysplitPath c1Ipd.path).2 = some [] ∧
    dlookup (manually_extract_metadata c1Group c1Ipd) "X" = some none ∧
    dlookup (get_ipd_metadata [c1Group] c1Ipd) "X" = some none := by
  decide

/-- C1 (amended): for a single manual filename-regex rule, a failed search
contributes no keys; a successful search contributes exactly one key per
named capture group of the pattern — the captured text for groups that
participated, and the Python `None` marker (not a missing key, not an empty
string) for named groups that did not participate. -/
theorem c1_single_filename_rule_extraction (g : ExtractionGroup)
    (ipd : ImagePlaneDetails)
    (hm : g.extraction_method = X_MANUAL_EXTRACTION)
    (hs : g.source = XM_FILE_NAME)
    (hf : g.filter_choice = F_ALL_IMAGES)
    (hmeta : ipd.metadata = [])
    (hnd : (collectNames g.file_regexp).Nodup) :
    (reSearch g.file_regexp (pysplitPath ipd.path).2 = none →
      get_ipd_metadata [g] ipd = []) ∧
    (∀ caps, reSearch g.file_regexp (pysplitPath ipd.path).2 = some caps →
      get_ipd_metadata [g] ipd =
        (collectNames g.file_regexp).map (fun n => (n, dlookup caps n))) := by
  have hchoice : ¬ (g.filter_choice = F_FILTERED_IMAGES ∧
      g.filter ipd = some false) := by
    intro hh
    rw [hf] at hh
    exact absurd hh.1 (by decide)
  have hone : get_ipd_metadata [g] ipd =
      dupdate ipd.metadata (ruleContribution g ipd) := rfl
  have hcontrib : ruleContribution g ipd = manually_extract_metadata g ipd := by
    unfold ruleContribution
    rw [if_neg hchoice, if_pos hm]
  constructor
  · intro hsearch
    rw [hone, hcontrib, hmeta]
    unfold manually_extract_metadata
    rw [if_pos hs, hsearch]
    rfl
  · intro caps hsearch
    rw [hone, hcontrib, hmeta]
    unfold manually_extract_metadata
    rw [if_pos hs, hsearch]
    unfold groupdict
    exact dupdate_nil _ (by rw [dkeys_map_pair]; exact hnd)

/-- Witness inputs for the amended C1: pattern `a(?P<X>b)?` on file name
`"ab"`, where group `X` captures `"b"`. -/
def c1wIpd : ImagePlaneDetails :=
  { path := "ab", series := none, index := none, channel := none,
    metadata := [] }

theorem c1_single_filename_rule_extraction_witness :
    get_ipd_metadata [c1Group] c1wIpd =
      (collectNames c1Group.file_regexp).map
        (fun n => (n, dlookup [("X", "b")] n)) :=
  (c1_single_filename_rule_extraction c1Group c1wIpd (by decide) (by decide)
    (by decide) (by decide) (by decide)).2 [("X", "b")] (by decide)

/-! ## Claim C2 -/

/-- C2: with the filter enabled, an explicitly false evaluation makes the
rule contribute nothing (and leaves the accumulated mapping unchanged),
while a `None` ("no opinion") evaluation — and any non-false evaluation —
makes the rule behave exactly as if no filter were configured. -/
theorem c2_filter_skip_semantics (g : ExtractionGroup)
    (ipd : ImagePlaneDetails)
    (henabled : g.filter_choice = F_FILTERED_IMAGES) :
    (g.filter ipd = some false →
      ruleContribution g ipd = [] ∧
      ∀ m : MetaMap, dupdate m (ruleContribution g ipd) = m) ∧
    (g.filter ipd = none →
      ruleContribution g ipd =
        ruleContribution { g with filter_choice := F_ALL_IMAGES } ipd) ∧
    (g.filter ipd ≠ some false →
      ruleContribution g ipd =
        ruleContribution { g with filter_choice := F_ALL_IMAGES } ipd) := by
  have hnofilter : ∀ g' : ExtractionGroup,
      ¬ (F_ALL_IMAGES = F_FILTERED_IMAGES ∧ g'.filter ipd = some false) := by
    intro g' hh
    exact absurd hh.1 (by decide)
  refine ⟨fun hfalse => ?_, fun hnone => ?_, fun hnf => ?_⟩
  · have : ruleContribution g ipd = [] := by
      unfold ruleContribution
      rw [if_pos ⟨henabled, hfalse⟩]
    exact ⟨this, fun m => by rw [this]; rfl⟩
  · unfold ruleContribution
    rw [if_neg (by rintro ⟨_, hh⟩; rw [hnone] at hh; exact Option.noConfusion hh),
      if_neg (hnofilter g)]
    rfl
  · unfold ruleContribution
    rw [if_neg (by rintro ⟨_, hh⟩; exact hnf hh), if_neg (hnofilter g)]
    rfl

/-- Witness inputs for C2: a filtered manual rule whose filter answers
`False` for one record and `None` for another. -/
def c2Group : ExtractionGroup :=
  { extraction_method := X_MANUAL_EXTRACTION, source := XM_FILE_NAME,
    file_regexp := .grp "X" (.chr 'a'),
    folder_regexp := .eps, filter_choice := F_FILTERED_IMAGES,
    filter := fun ipd => if ipd.path = "a" then some false else none }

def c2IpdSkip : ImagePlaneDetails :=
  { path := "a", series := none, index := none, channel := none,
    metadata := [] }

def c2IpdPass : ImagePlaneDetails :=
  { path := "ax", series := none, index := none, channel := none,
    metadata := [] }

theorem c2_filter_skip_semantics_witness :
    ruleContribution c2Group c2IpdSkip = [] ∧
    ruleContribution c2Group c2IpdPass =
      ruleContribution { c2Group with filter_choice := F_ALL_IMAGES }
        c2IpdPass :=
  ⟨((c2_filter_skip_semantics c2Group c2IpdSkip (by decide)).1
      (by decide)).1,
    (c2_filter_skip_semantics c2Group c2IpdPass (by decide)).2.1 (by decide)⟩

/-! ## Claim C7 -/

/-- C7: the in-order merge is last-write-wins — when a later rule produces a
key, and no rule after it produces that key again, the extraction result
holds the later rule's value regardless of what earlier rules (or the
record's own metadata) bound it to. -/
theorem c7_later_rule_wins (pre post : List ExtractionGroup)
    (g : ExtractionGroup) (ipd : ImagePlaneDetails) (k : String)
    (v : Option String)
    (hnd : (dkeys (ruleContribution g ipd)).Nodup)
    (hv : dlookup (ruleContribution g ipd) k = some v)
    (hpost : ∀ g' ∈ post, dlookup (ruleContribution g' ipd) k = none) :
    dlookup (get_ipd_metadata (pre ++ g :: post) ipd) k = some v := by
  rw [get_ipd_metadata_append]
  have hstep : (g :: post).foldl
      (fun m g => dupdate m (ruleContribution g ipd))
      (get_ipd_metadata pre ipd) =
      post.foldl (fun m g => dupdate m (ruleContribution g ipd))
        (dupdate (get_ipd_metadata pre ipd) (ruleContribution g ipd)) := rfl
  rw [hstep, dlookup_fold_contrib post ipd k _ hpost]
  exact dlookup_dupdate_of_key _ _ _ _ hnd hv

/-- Witness inputs for C7: two manual filename rules on path `"ab"`, both
producing the tag `Plate` — the first captures `"a"`, the second `"b"`. -/
def c7Rule1 : ExtractionGroup :=
  { extraction_method := X_MANUAL_EXTRACTION, source := XM_FILE_NAME,
    file_regexp := .grp "Plate" (.chr 'a'),
    folder_regexp := .eps, filter_choice := F_ALL_IMAGES,
    filter := fun _ => none }

def c7Rule2 : ExtractionGroup :=
  { extraction_method := X_MANUAL_EXTRACTION, source := XM_FILE_NAME,
    file_regexp := .grp "Plate" (.chr 'b'),
    folder_regexp := .eps, filter_choice := F_ALL_IMAGES,
    filter := fun _ => none }

def c7Ipd : ImagePlaneDetails :=
  { path := "ab", series := none, index := none, channel := none,
    metadata := [] }

theorem c7_later_rule_wins_witness :
    dlookup (get_ipd_metadata ([c7Rule1] ++ c7Rule2 :: []) c7Ipd) "Plate" =
      some (some "b") :=
  c7_later_rule_wins [c7Rule1] [] c7Rule2 c7Ipd "Plate" (some "b")
    (by decide) (by decide) (by intro g' hg'; cases hg')

/-! ## Claim C9 -/

/-- C9 (amended): `get_ipd_metadata` starts from a **copy** of the record's
metadata mapping and accumulates contributions into that copy; on every key
to which no rule contributes, the returned mapping still answers with the
record's own value.  The record itself is never written — the source binds
`m = ipd.metadata.copy()` and returns `m`, with no assignment back into
`ipd`. -/
theorem c9_extraction_reads_record_copy (groups : List ExtractionGroup)
    (ipd : ImagePlaneDetails) (k : String)
    (h : ∀ g ∈ groups, dlookup (ruleContribution g ipd) k = none) :
    dlookup (get_ipd_metadata groups ipd) k = dlookup ipd.metadata k :=
  dlookup_fold_contrib groups ipd k ipd.metadata h

/-- Rule and record for the C9 counterexample: extracting `X = "a"` from
path `"a"` into a record whose own mapping is empty. -/
def c9Group : ExtractionGroup :=
  { extraction_method := X_MANUAL_EXTRACTION, source := XM_FILE_NAME,
    file_regexp := .grp "X" (.chr 'a'),
    folder_regexp := .eps, filter_choice := F_ALL_IMAGES,
    filter := fun _ => none }

def c9Ipd : ImagePlaneDetails :=
  { path := "a", series := none, index := none, channel := none,
    metadata := [] }

/-- C9 counterexample: extraction produced the tag `X`, but the record's
own metadata mapping — which the pure source function never assigns to —
does not contain it: the accumulated tags live only in the returned copy,
so "after extraction the record's mapping contains the accumulated tags"
fails. -/
theorem c9_no_writeback_counterexample :
    dlookup (get_ipd_metadata [c9Group] c9Ipd) "X" = some (some "a") ∧
    dlookup c9Ipd.metadata "X" = none ∧
    get_ipd_metadata [c9Group] c9Ipd ≠ c9Ipd.metadata := by
  decide

theorem c9_extraction_reads_record_copy_witness :
    dlookup (get_ipd_metadata [c9Group] c9Ipd) "Other" =
      dlookup c9Ipd.metadata "Other" :=
  c9_extraction_reads_record_copy [c9Group] c9Ipd "Other"
    (by intro g hg; rw [List.mem_singleton] at hg; subst hg; decide)

/-! ## Claim C10 -/

theorem foldl_insert_column_columns (cs : List String) :
    ∀ (t : CPTable) (n : Nat), t.columns.length = n →
      ((cs.enumFrom n).foldl
          (fun t ic => t.insert_column ic.1 ic.2) t).columns
        = t.columns ++ cs := by
  induction cs with
  | nil => intro t n _; simp
  | cons c cs ih =>
    intro t n h
    have hstep : List.enumFrom n (c :: cs) = (n, c) :: List.enumFrom (n + 1) cs :=
      rfl
    rw [hstep, List.foldl_cons]
    have hins : (t.insert_column n c).columns = t.columns ++ [c] := by
      simp only [CPTable.insert_column, ← h]
      exact List.insertIdx_length_self _ _
    rw [ih (t.insert_column n c) (n + 1) (by rw [hins]; simp [h]), hins,
      List.append_assoc]
    rfl

theorem foldl_insert_column_data (cs : List (Nat × String)) :
    ∀ t : CPTable,
      (cs.foldl (fun t ic => t.insert_column ic.1 ic.2) t).data = t.data := by
  induction cs with
  | nil => intro t; rfl
  | cons c cs ih =>
    intro t
    rw [List.foldl_cons, ih]
    rfl

/-- `update_table` fully determines the resulting table from the records
and rules alone: the incoming table state is discarded. -/
theorem update_table_closed_form (extraction_methods : List ExtractionGroup)
    (ipds : List ImagePlaneDetails) (t : CPTable) :
    update_table extraction_methods ipds t =
      { columns := [COL_PATH, COL_SERIES, COL_INDEX, COL_CHANNEL] ++
          pysorted (collectColumns extraction_methods ipds),
        data := ipds.map (fun ipd =>
          [some ipd.path, ipd.series, ipd.index, ipd.channel] ++
            (pysorted (collectColumns extraction_methods ipds)).map (fun c =>
              pyget (get_ipd_metadata extraction_methods ipd) c)) } := by
  unfold update_table
  have hcleared : (t.clear_columns.clear_rows).columns = [] := rfl
  have hcols := foldl_insert_column_columns
    ([COL_PATH, COL_SERIES, COL_INDEX, COL_CHANNEL] ++
      pysorted (collectColumns extraction_methods ipds))
    (t.clear_columns.clear_rows) 0 (by rw [hcleared]; rfl)
  have hdata := foldl_insert_column_data
    (([COL_PATH, COL_SERIES, COL_INDEX, COL_CHANNEL] ++
      pysorted (collectColumns extraction_methods ipds)).enumFrom 0)
    (t.clear_columns.clear_rows)
  simp only [List.enum] at *
  apply CPTable.ext
  · simp only [CPTable.add_rows, hcols, hcleared]
    rfl
  · simp only [CPTable.add_rows, hdata]
    rfl

/-- C10: rebuilding the metadata table is idempotent — `update_table`
clears all columns and rows before repopulating, so a second call on the
same records and rules leaves exactly the state of the first. -/
theorem c10_update_table_idempotent (extraction_methods : List ExtractionGroup)
    (ipds : List ImagePlaneDetails) (t : CPTable) :
    update_table extraction_methods ipds
        (update_table extraction_methods ipds t) =
      update_table extraction_methods ipds t := by
  rw [update_table_closed_form, update_table_closed_form]

/-! ## Claim C5 -/

theorem mem_pysorted (l : List String) (c : String) :
    c ∈ pysorted l ↔ c ∈ l :=
  (List.perm_insertionSort pyle l).mem_iff

theorem mem_collectColumns (extraction_methods : List ExtractionGroup)
    (ipds : List ImagePlaneDetails) (c : String) :
    c ∈ collectColumns extraction_methods ipds ↔
      ∃ ipd ∈ ipds,
        (dlookup (get_ipd_metadata extraction_methods ipd) c).isSome := by
  unfold collectColumns
  rw [List.mem_dedup, List.mem_flatMap]
  constructor
  · rintro ⟨ipd, hipd, hc⟩
    exact ⟨ipd, hipd, (dlookup_isSome_iff_mem_keys _ _).2 hc⟩
  · rintro ⟨ipd, hipd, hc⟩
    exact ⟨ipd, hipd, (dlookup_isSome_iff_mem_keys _ _).1 hc⟩

/-- C5: the rebuilt table's columns are the four fixed ones in fixed order
followed by the lexicographically sorted union of the tag keys produced
across all records; each record yields one row, whose tag cells come from
`metadata.get`; a tag the record did not produce is rendered as the Python
`None` marker, which is distinguishable from the empty string. -/
theorem c5_table_columns_and_absent_marker
    (extraction_methods : List ExtractionGroup)
    (ipds : List ImagePlaneDetails) (t : CPTable) :
    (update_table extraction_methods ipds t).columns.take 4 =
      [COL_PATH, COL_SERIES, COL_INDEX, COL_CHANNEL] ∧
    List.Sorted pyle ((update_table extraction_methods ipds t).columns.drop 4) ∧
    (∀ c, c ∈ (update_table extraction_methods ipds t).columns.drop 4 ↔
      ∃ ipd ∈ ipds,
        (dlookup (get_ipd_metadata extraction_methods ipd) c).isSome) ∧
    (update_table extraction_methods ipds t).data = ipds.map (fun ipd =>
      [some ipd.path, ipd.series, ipd.index, ipd.channel] ++
        ((update_table extraction_methods ipds t).columns.drop 4).map (fun c =>
          pyget (get_ipd_metadata extraction_methods ipd) c)) ∧
    (∀ ipd c, dlookup (get_ipd_metadata extraction_methods ipd) c = none →
      pyget (get_ipd_metadata extraction_methods ipd) c = none) ∧
    ((none : Option String) ≠ some "") := by
  rw [update_table_closed_form]
  refine ⟨rfl, ?_, ?_, rfl, ?_, by simp⟩
  · exact List.sorted_insertionSort pyle _
  · intro c
    show c ∈ pysorted (collectColumns extraction_methods ipds) ↔ _
    rw [mem_pysorted]
    exact mem_collectColumns extraction_methods ipds c
  · intro ipd c h
    simp [pyget, h]

/-- Witness inputs for C5: one rule extracting `Plate` from file names that
start with `a`, over two records of which only the first matches. -/
def c5Rule : ExtractionGroup :=
  { extraction_method := X_MANUAL_EXTRACTION, source := XM_FILE_NAME,
    file_regexp := .grp "Plate" (.chr 'a'),
    folder_regexp := .eps, filter_choice := F_ALL_IMAGES,
    filter := fun _ => none }

def c5IpdA : ImagePlaneDetails :=
  { path := "a", series := none, index := none, channel := none,
    metadata := [] }

def c5IpdB : ImagePlaneDetails :=
  { path := "z", series := none, index := none, channel := none,
    metadata := [] }

def c5Table : CPTable := { columns := ["junk"], data := [[some "junk"]] }

theorem c5_table_columns_and_absent_marker_witness :
    (update_table [c5Rule] [c5IpdA, c5IpdB] c5Table).columns.take 4 =
      [COL_PATH, COL_SERIES, COL_INDEX, COL_CHANNEL] ∧
    pyget (get_ipd_metadata [c5Rule] c5IpdB) "Plate" = none ∧
    ((none : Option String) ≠ some "") :=
  ⟨(c5_table_columns_and_absent_marker [c5Rule] [c5IpdA, c5IpdB] c5Table).1,
    (c5_table_columns_and_absent_marker [c5Rule] [c5IpdA, c5IpdB]
      c5Table).2.2.2.2.1 c5IpdB "Plate" (by decide),
    (c5_table_columns_and_absent_marker [c5Rule] [c5IpdA, c5IpdB]
      c5Table).2.2.2.2.2⟩

/-! ## The ExportToExcel module (`pyCellProfiler/.../exporttoexcel.py`) -/

/-- Modelled from the spec: the reserved synthetic entity name for per-image
data (`cellprofiler.measurements.IMAGE`, not under the provided sources). -/
def IMAGE : String := "Image"

/-- Modelled from the spec: the reserved synthetic entity name for
whole-experiment data (`cellprofiler.measurements.EXPERIMENT`). -/
def EXPERIMENT : String := "Experiment"

/-- "The caption for the image set index". -/
def IMAGE_NUMBER : String := "ImageNumber"

/-- "The caption for the object # within an image set". -/
def OBJECT_NUMBER : String := "ObjectNumber"

/-- One object-group settings block of ExportToExcel: the data source name
(`OG_OBJECT_NAME`), the "combine with previous object" checkbox
(`OG_PREVIOUS_FILE`) and the target file name (`OG_FILE_NAME`). -/
structure ObjectGroup where
  object_name : String
  previous_file : Bool
  file_name : String
deriving DecidableEq

/-- `is_object_group`: "True if the group's object name is not one of the
static names". -/
def is_object_group (group : ObjectGroup) : Bool :=
  ! decide (group.object_name = IMAGE ∨ group.object_name = EXPERIMENT)

/-- The body of the collection loop in `ExportToExcel.run`, transliterated
from its indexed form (`i`, `i+1`) to a look-ahead recursion: each step
handles group `i` with `rest` the groups after it, `names` the object
names accumulated so far for the current output unit and `fname` the
current unit's file name.  `last_in_file` is exactly the source condition
`(i == len-1) or (not is_object_group(group)) or
(not is_object_group(groups[i+1])) or (not groups[i+1][OG_PREVIOUS_FILE])`;
on `last_in_file` the unit `(object_names, filename)` is emitted (the
source calls `run_objects`) and the name accumulator is reset. -/
def runUnitsAux (g : ObjectGroup) (rest : List ObjectGroup)
    (names : List String) (fname : String) : List (List String × String) :=
  let fname1 := if names.isEmpty then g.file_name else fname
  let names1 := names ++ [g.object_name]
  match rest with
  | [] => [(names1, fname1)]
  | g2 :: rest2 =>
    if !is_object_group g || !is_object_group g2 || !g2.previous_file then
      (names1, fname1) :: runUnitsAux g2 rest2 [] fname1
    else
      runUnitsAux g2 rest2 names1 fname1

/-- The output units `(object_names, filename)` on which `ExportToExcel.run`
invokes `run_objects`, in order. -/
def runUnits : List ObjectGroup → List (List String × String)
  | [] => []
  | g :: rest => runUnitsAux g rest [] ""

/-- From the spec's words: a group continues the previous unit's run when it
is an object-entity group declaring "merge with previous". -/
def mergesWithPrevious (g : ObjectGroup) : Bool :=
  is_object_group g && g.previous_file

/-- From the spec's words ("walk the list; a run of consecutive
object-entity groups where each group-after-the-first declares merge with
previous becomes one output unit sharing the first group's target file
name; any group not declaring merge, or a synthetic whole-experiment /
per-image group, starts a new unit"): the specified partition into output
units. -/
def specMergePartition : List ObjectGroup → List (List String × String)
  | [] => []
  | g :: rest =>
    if is_object_group g then
      ((g :: rest.takeWhile mergesWithPrevious).map (fun x => x.object_name),
        g.file_name) ::
        specMergePartition (rest.dropWhile mergesWithPrevious)
    else
      ([g.object_name], g.file_name) :: specMergePartition rest
termination_by l => l.length
decreasing_by
  · simp only [List.length_cons]
    exact Nat.lt_succ_of_le (List.Sublist.length_le (List.dropWhile_sublist _))
  · simp

/-! ## Claim C3 -/

/-- The initial file-name argument is irrelevant when a fresh unit starts:
with an empty name accumulator the first step rebinds it to the group's own
file name. -/
theorem runUnitsAux_fname_irrel (g : ObjectGroup) (rest : List ObjectGroup)
    (a b : String) : runUnitsAux g rest [] a = runUnitsAux g rest [] b := by
  cases rest with
  | nil => rfl
  | cons g2 rest2 => rfl

/-- How the loop consumes a maximal merge run headed by an object group. -/
theorem runUnitsAux_object_run (rest : List ObjectGroup) :
    ∀ (g : ObjectGroup) (names : List String) (fname : String),
      is_object_group g = true →
      runUnitsAux g rest names fname =
        ((names ++ (g :: rest.takeWhile mergesWithPrevious).map
            (fun x => x.object_name)),
          if names.isEmpty then g.file_name else fname) ::
          runUnits (rest.dropWhile mergesWithPrevious) := by
  induction rest with
  | nil =>
    intro g names fname _
    simp [runUnitsAux, runUnits]
  | cons g2 rest2 ih =>
    intro g names fname hobj
    by_cases hmerge : mergesWithPrevious g2 = true
    · have hm := hmerge
      unfold mergesWithPrevious at hm
      rw [Bool.and_eq_true] at hm
      have hobj2 : is_object_group g2 = true := hm.1
      have hprev : g2.previous_file = true := hm.2
      have hcond :
          (!is_object_group g || !is_object_group g2 || !g2.previous_file)
            = false := by
        simp [hobj, hobj2, hprev]
      show (if (!is_object_group g || !is_object_group g2 ||
          !g2.previous_file) = true then _ else
            runUnitsAux g2 rest2 (names ++ [g.object_name])
              (if names.isEmpty then g.file_name else fname)) = _
      rw [hcond]
      simp only [Bool.false_eq_true, if_false]
      rw [ih g2 (names ++ [g.object_name])
        (if names.isEmpty then g.file_name else fname) hobj2]
      have hne : (names ++ [g.object_name]).isEmpty = false := by
        cases names <;> rfl
      rw [List.takeWhile_cons_of_pos hmerge, List.dropWhile_cons_of_pos hmerge]
      simp [hne]
    · have hmerge' : mergesWithPrevious g2 = false := by
        simpa using hmerge
      have hcond :
          (!is_object_group g || !is_object_group g2 || !g2.previous_file)
            = true := by
        unfold mergesWithPrevious at hmerge'
        rcases Bool.and_eq_false_iff.1 hmerge' with h | h
        · simp [h]
        · simp [h]
      show (if (!is_object_group g || !is_object_group g2 ||
          !g2.previous_file) = true then
            ((names ++ [g.object_name],
              if names.isEmpty then g.file_name else fname)) ::
              runUnitsAux g2 rest2 []
                (if names.isEmpty then g.file_name else fname)
          else _) = _
      rw [hcond]
      simp only [if_true]
      rw [List.takeWhile_cons_of_neg (by simp [hmerge']),
        List.dropWhile_cons_of_neg (by simp [hmerge'])]
      rw [runUnitsAux_fname_irrel g2 rest2 _ ""]
      rfl

theorem runUnits_eq_spec_aux :
    ∀ (n : Nat) (gs : List ObjectGroup), gs.length ≤ n →
      runUnits gs = specMergePartition gs := by
  intro n
  induction n with
  | zero =>
    intro gs h
    have : gs = [] := List.eq_nil_of_length_eq_zero (Nat.le_zero.1 h)
    subst this
    simp [runUnits, specMergePartition]
  | succ n ih =>
    intro gs h
    cases gs with
    | nil => simp [runUnits, specMergePartition]
    | cons g rest =>
      by_cases hobj : is_object_group g = true
      · have hlen : (rest.dropWhile mergesWithPrevious).length ≤ n := by
          have h1 := List.Sublist.length_le (List.dropWhile_sublist
            (l := rest) (p := mergesWithPrevious))
          have h2 : rest.length ≤ n := Nat.le_of_succ_le_succ h
          omega
        rw [show runUnits (g :: rest) = runUnitsAux g rest [] "" from rfl,
          runUnitsAux_object_run rest g [] "" hobj,
          ih _ hlen, specMergePartition, if_pos hobj]
        rfl
      · have hobj' : is_object_group g = false := by simpa using hobj
        cases rest with
        | nil =>
          rw [show runUnits [g] = runUnitsAux g [] [] "" from rfl]
          simp [runUnitsAux, specMergePartition, hobj']
        | cons g2 rest2 =>
          have hcond :
              (!is_object_group g || !is_object_group g2 ||
                !g2.previous_file) = true := by
            simp [hobj']
          have hstep : runUnits (g :: g2 :: rest2) =
              ([g.object_name], g.file_name) ::
                runUnitsAux g2 rest2 [] g.file_name := by
            show (if (!is_object_group g || !is_object_group g2 ||
                !g2.previous_file) = true then
                  (([] ++ [g.object_name], g.file_name)) ::
                    runUnitsAux g2 rest2 [] g.file_name
                else runUnitsAux g2 rest2 ([] ++ [g.object_name])
                  g.file_name) = _
            rw [hcond]
            simp
          rw [hstep, runUnitsAux_fname_irrel g2 rest2 _ "",
            show runUnitsAux g2 rest2 [] "" = runUnits (g2 :: rest2) from rfl,
            ih _ (Nat.le_of_succ_le_succ h)]
          conv_rhs => rw [specMergePartition]
          rw [if_neg (by simp [hobj'])]

/-- Groups realizing the spec's concrete merge-partition example. -/
def c3GroupA : ObjectGroup :=
  { object_name := "ObjA", previous_file := false, file_name := "a.csv" }

def c3GroupB : ObjectGroup :=
  { object_name := "ObjB", previous_file := true, file_name := "b.csv" }

def c3GroupC : ObjectGroup :=
  { object_name := "ObjC", previous_file := false, file_name := "c.csv" }

/-- C3: the run loop of ExportToExcel partitions the ordered group list
exactly as the spec describes — maximal runs of consecutive object-entity
groups whose non-first members set the merge flag become one unit under the
first group's file name, every other group (merge flag unset, or a
reserved `Image` / `Experiment` entity) starts a new unit; in particular
`[A(merge=false), B(merge=true), C(merge=false)]` with A, B, C object
entities yields exactly the two units `{A,B}` under A's file name and
`{C}` alone. -/
theorem c3_merge_partitioning :
    (∀ gs : List ObjectGroup, runUnits gs = specMergePartition gs) ∧
    runUnits [c3GroupA, c3GroupB, c3GroupC] =
      [(["ObjA", "ObjB"], "a.csv"), (["ObjC"], "c.csv")] :=
  ⟨fun gs => runUnits_eq_spec_aux gs.length gs (Nat.le_refl _), by decide⟩

/-! ## Measurements, file names and file writing -/

/-- A Python value as it appears in a measurement cell: `np.NAN` (the
explicit missing marker — we model it as a distinguished constructor and
do not rely on float semantics), an integer, or a string. -/
inductive PyVal where
  | nan : PyVal
  | int : Int → PyVal
  | str : String → PyVal
deriving DecidableEq, Repr

/-- The measurement-store collaborator (`workspace.measurements`, the
`cellprofiler.measurements.Measurements` class, outside the provided
sources; interface per spec section 6).  `img_meas` is
`get_measurement(IMAGE, feature, index)` — the source guards
`x if np.isscalar(x) else x[0]`, so image measurements are modelled as
scalars; `obj_meas` is the per-object array
`get_measurement(object_name, feature, index)`; `agg` is
`compute_aggregate_measurements(index)`; `exp_meas` is
`get_all_measurements(EXPERIMENT, feature)`; `metadata_of` gives the
per-image metadata tag values backing `group_by_metadata` /
`apply_metadata`; `indexes` is the run's list of image-set indexes. -/
structure Measurements where
  feature_names : String → List String
  img_meas : String → Nat → PyVal
  obj_meas : String → String → Nat → List PyVal
  agg : Nat → List (String × PyVal)
  exp_meas : String → List PyVal
  metadata_of : Nat → String → Option String
  indexes : List Nat

/-- Scanner state for `\g<tagname>` placeholders in a file name. -/
inductive ScanSt where
  | norm : ScanSt
  | sawB : ScanSt
  | sawBG : ScanSt
  | inTag : List Char → ScanSt

/-- Modelled from the spec (`cellprofiler.measurements.find_metadata_tokens`
is not under the provided sources; spec section 6: "a file name may embed
`\g<tagname>` placeholders"): collect the placeholder names, left to
right. -/
def scanTokens : List Char → ScanSt → List String
  | [], _ => []
  | c :: rest, .norm => scanTokens rest (if c = '\\' then .sawB else .norm)
  | c :: rest, .sawB =>
    scanTokens rest
      (if c = 'g' then .sawBG else if c = '\\' then .sawB else .norm)
  | c :: rest, .sawBG =>
    scanTokens rest
      (if c = '<' then .inTag [] else if c = '\\' then .sawB else .norm)
  | c :: rest, .inTag acc =>
    if c = '>' then (⟨acc.reverse⟩ : String) :: scanTokens rest .norm
    else scanTokens rest (.inTag (c :: acc))

def find_metadata_tokens (file_name : String) : List String :=
  scanTokens file_name.toList .norm

/-- Modelled from the spec (`Measurements.apply_metadata` is not under the
provided sources; spec section 6: "at write time each placeholder is
substituted with that tag's value for the current partition"): substitute
each `\g<tagname>` with the tag's value for image set `i`, other
characters unchanged. -/
def substTokens (md : String → Option String) : List Char → ScanSt → List Char
  | [], .norm => []
  | [], .sawB => ['\\']
  | [], .sawBG => ['\\', 'g']
  | [], .inTag acc => '\\' :: 'g' :: '<' :: acc.reverse
  | c :: rest, .norm =>
    if c = '\\' then substTokens md rest .sawB
    else c :: substTokens md rest .norm
  | c :: rest, .sawB =>
    if c = 'g' then substTokens md rest .sawBG
    else if c = '\\' then '\\' :: substTokens md rest .sawB
    else '\\' :: c :: substTokens md rest .norm
  | c :: rest, .sawBG =>
    if c = '<' then substTokens md rest (.inTag [])
    else if c = '\\' then '\\' :: 'g' :: substTokens md rest .sawB
    else '\\' :: 'g' :: c :: substTokens md rest .norm
  | c :: rest, .inTag acc =>
    if c = '>' then
      ((md ⟨acc.reverse⟩).getD "").toList ++ substTokens md rest .norm
    else substTokens md rest (.inTag (c :: acc))

def apply_metadata (m : Measurements) (file_name : String) (i : Nat) : String :=
  ⟨substTokens (m.metadata_of i) file_name.toList .norm⟩

/-- The combination of the given tags' values for image set `i`; `none`
when the image set lacks a value for some referenced tag. -/
def comboOf (m : Measurements) (tags : List String) (i : Nat) :
    Option (List String) :=
  tags.mapM (fun t => m.metadata_of i t)

structure MetadataGroup where
  combo : List (String × String)
  indexes : List Nat
deriving DecidableEq

/-- Modelled from the spec (`Measurements.group_by_metadata` is not under
the provided sources; spec section 4.2: "partition the record set into one
group per distinct combination of those tags' values (records sharing no
value for a referenced tag are excluded from every group)"). -/
def group_by_metadata (m : Measurements) (tags : List String) :
    List MetadataGroup :=
  ((m.indexes.filterMap (fun i => comboOf m tags i)).dedup).map
    (fun c => { combo := tags.zip c,
                indexes := m.indexes.filter
                  (fun i => comboOf m tags i = some c) })

/-- External preference collaborators (`cellprofiler.preferences`, not
under the provided sources): `get_absolute_path` resolves the `.` / `&`
leading markers, `get_output_file_name` names the run's own output file. -/
structure Prefs where
  get_absolute_path : String → String
  output_file_name : String

/-- posix `os.path.join` for two components. -/
def pyjoin (path file : String) : String :=
  if file.toList.head? = some '/' then file
  else if path = "" ∨ path.toList.getLast? = some '/' then path ++ file
  else path ++ "/" ++ file

/-- `p.rfind(target) + 1` over the character list. -/
def lastPosAfter (target : Char) : List Char → Nat
  | [] => 0
  | c :: rest =>
    let r := lastPosAfter target rest
    if r = 0 then (if c = target then 1 else 0) else r + 1

/-- posix `os.path.splitext(p)[0]`: cut at the last dot of the base name,
unless the base name up to that dot is all dots. -/
def pysplitextRoot (p : String) : String :=
  let cs := p.toList
  let i := lastSlashPos cs
  let d := lastPosAfter '.' cs
  if i < d ∧ ((cs.drop i).take (d - 1 - i)).any (fun c => c ≠ '.') then
    ⟨cs.take (d - 1)⟩
  else p

/-- `ExportToExcel.make_full_filename`: apply metadata when an image-set
index is given, resolve to an absolute path, optionally prepend the run's
output-file base name, and re-join (directory creation is a file-system
side effect with no bearing on the returned name). -/
def make_full_filename (prefs : Prefs) (prepend_output_filename : Bool)
    (m : Measurements) (file_name : String) (image_set_index : Option Nat) :
    String :=
  let file_name :=
    match image_set_index with
    | some i => apply_metadata m file_name i
    | none => file_name
  let file_name := prefs.get_absolute_path file_name
  let pf := pysplitPath file_name
  let file :=
    if prepend_output_filename then
      pysplitextRoot prefs.output_file_name ++ pf.2
    else pf.2
  pyjoin pf.1 file

/-- The interactive column picker (the wx dialog of `user_filter_columns`,
an external GUI collaborator): given a title and the column list, the user
either confirms a subset (`some`) or abandons the operation (`none`,
Python's implicit `None` on cancel). -/
abbrev Picker := String → List String → Option (List String)

/-- `ExportToExcel.user_filter_columns`: bypass the dialog (returning all
columns) when there is no frame, or when column picking is off and the
Excel limit does not apply; otherwise defer to the modal dialog. -/
def user_filter_columns (mod_pick_columns mod_excel_limits : Bool)
    (frame : Option Picker) (title : String) (columns : List String) :
    Option (List String) :=
  match frame with
  | none => some columns
  | some picker =>
    if mod_pick_columns = false ∧
        (mod_excel_limits = false ∨ columns.length < 256) then
      some columns
    else picker title columns

/-- The ExportToExcel settings relevant to `run`. -/
structure ExportToExcel where
  delimiter : String
  prepend_output_filename : Bool
  add_metadata : Bool
  add_indexes : Bool
  excel_limits : Bool
  pick_columns : Bool
  object_groups : List ObjectGroup

/-- The content written into one output file: a delimited table (header
rows of feature-name strings, then data rows), or the experiment file's
(feature, value-sequence) rows. -/
inductive OutContent where
  | table : List (List String) → List (List PyVal) → OutContent
  | experimentTbl : List (String × List PyVal) → OutContent
deriving DecidableEq

structure OutFile where
  name : String
  content : OutContent
deriving DecidableEq

/-- The outcome of one file-writing call: a written file, an abandoned
write (the image path returns after `user_filter_columns` yields `None`,
leaving the already-opened file empty), or an uncaught Python exception. -/
inductive WriteResult where
  | written : OutFile → WriteResult
  | abandoned : String → WriteResult
  | pyerror : String → WriteResult
deriving DecidableEq

/-- `ExportToExcel.make_experiment_file`: one row per experiment feature,
holding the feature name and its whole-run value sequence. -/
def make_experiment_file (prefs : Prefs) (mod : ExportToExcel)
    (m : Measurements) (file_name : String) : WriteResult :=
  .written
    { name := make_full_filename prefs mod.prepend_output_filename m
        file_name none,
      content := .experimentTbl ((m.feature_names EXPERIMENT).map
        (fun f => (f, m.exp_meas f))) }

/-- One data row of the per-image file (the list comprehension of
`make_image_file`): the 1-based ordinal for `IMAGE_NUMBER`, else the
aggregate value when the feature has one, else the raw image
measurement. -/
def imageRow (m : Measurements) (image_features : List String) (index : Nat) :
    List PyVal :=
  image_features.map (fun feature_name =>
    if feature_name = IMAGE_NUMBER then PyVal.int (Int.ofNat index + 1)
    else
      match dlookup (m.agg index) feature_name with
      | some v => v
      | none => m.img_meas feature_name index)

/-- `ExportToExcel.make_image_file`.  The header is built at the first
index: raw image features (plus `ImageNumber` under the add-index option),
extended with the sorted aggregate names, sorted again and passed through
the interactive column filter; a `None` from the filter returns without
writing any row. -/
def make_image_file (prefs : Prefs) (mod : ExportToExcel)
    (frame : Option Picker) (m : Measurements) (file_name : String)
    (image_set_indexes : List Nat) : WriteResult :=
  let full := make_full_filename prefs mod.prepend_output_filename m
    file_name (some (image_set_indexes.headD 0))
  let image_features0 := m.feature_names IMAGE
  let image_features1 :=
    if mod.add_indexes then IMAGE_NUMBER :: image_features0
    else image_features0
  match image_set_indexes with
  | [] => .written { name := full, content := .table [] [] }
  | i0 :: _ =>
    let ordered_agg_names := pysorted (dkeys (m.agg i0))
    let image_features2 := pysorted (image_features1 ++ ordered_agg_names)
    match user_filter_columns mod.pick_columns mod.excel_limits frame
        "Image CSV file columns" image_features2 with
    | none => .abandoned full
    | some image_features =>
      .written { name := full,
                 content := .table [image_features]
                   (image_set_indexes.map (fun idx =>
                     imageRow m image_features idx)) }

/-- Python's `<` on strings. -/
def pyStrLt (a b : String) : Bool := pyStrLe a b && !(a == b)

/-- Python's tuple comparison for `(name, feature)` pairs, as used by
`mdfeatures.sort()` and `ofeatures.sort()`. -/
def pairLe (a b : String × String) : Bool :=
  pyStrLt a.1 b.1 || (a.1 == b.1 && pyStrLe a.2 b.2)

def pysortedPairs (l : List (String × String)) : List (String × String) :=
  List.insertionSort (fun a b => pairLe a b = true) l

/-- Python `s.split(sep)` on character lists. -/
def pySplitChar (sep : Char) : List Char → List (List Char)
  | [] => [[]]
  | c :: rest =>
    let r := pySplitChar sep rest
    if c = sep then [] :: r
    else
      match r with
      | [] => [[c]]
      | h :: t => (c :: h) :: t

/-- Python `x.split(':')`. -/
def pySplitColon (s : String) : List String :=
  (pySplitChar ':' s.toList).map (fun l => (⟨l⟩ : String))

/-- `np.max` over the `Count_<name>` image measurements of the unit's
entities (counts are integer measurements; numpy would fail on anything
else, and on an empty entity list, which callers never pass). -/
def objectCount (m : Measurements) (object_names : List String)
    (img_index : Nat) : Nat :=
  (object_names.map (fun name =>
    match m.img_meas ("Count_" ++ name) img_index with
    | .int n => n.toNat
    | _ => 0)).foldl max 0

/-- One column of the merged-object table for one image (the inner
comprehension of `make_object_file`): `ImageNumber` and `ObjectNumber`
ordinals, image-level features broadcast over all `object_count` rows
(`np.repeat`), and per-object features as the store's array. -/
def objectColumn (m : Measurements) (object_count : Nat) (img_index : Nat)
    (object_name feature_name : String) : List PyVal :=
  if feature_name = IMAGE_NUMBER then
    List.replicate object_count (PyVal.int (Int.ofNat img_index + 1))
  else if feature_name = OBJECT_NUMBER then
    (List.range object_count).map (fun j => PyVal.int (Int.ofNat j + 1))
  else if object_name = IMAGE then
    List.replicate object_count (m.img_meas feature_name img_index)
  else m.obj_meas object_name feature_name img_index

/-- The data rows `make_object_file` emits for one image: one row per
object index up to the maximum entity count, each cell
`column[obj_index] if obj_index < column.shape[0] else np.NAN`. -/
def objectRowsForImage (m : Measurements) (features : List (List String))
    (object_names : List String) (img_index : Nat) : List (List PyVal) :=
  let object_count := objectCount m object_names img_index
  let columns := features.map (fun x =>
    objectColumn m object_count img_index (x.getD 0 "") (x.getD 1 ""))
  (List.range object_count).map (fun obj_index =>
    columns.map (fun column => column.getD obj_index PyVal.nan))

/-- The `(entity, feature)` column locators `make_object_file` declares:
optional index columns, optional sorted metadata columns, then each
entity's sorted feature list. -/
def objectFileFeatures (mod : ExportToExcel) (m : Measurements)
    (object_names : List String) : List (String × String) :=
  (if mod.add_indexes then
    [(IMAGE, IMAGE_NUMBER), (object_names.headD "", OBJECT_NUMBER)]
  else []) ++
  (if mod.add_metadata then
    pysortedPairs (((m.feature_names IMAGE).filter
      (fun n => n.startsWith "Metadata_")).map (fun n => (IMAGE, n)))
  else []) ++
  object_names.flatMap (fun object_name =>
    pysortedPairs ((m.feature_names object_name).map
      (fun f => (object_name, f))))

/-- The declared columns after the `"%s:%s"` round trip through the column
picker and `x.split(':')`. -/
def objectFileSplitFeatures (cols : List String) : List (List String) :=
  cols.map (fun x => pySplitColon x)

/-- The header rows: entity names then feature names for a merged
multi-entity unit, feature names alone otherwise. -/
def objectFileHeaders (object_names : List String)
    (features2 : List (List String)) : List (List String) :=
  if object_names.length > 1 then
    [features2.map (fun x => x.getD 0 ""),
      features2.map (fun x => x.getD 1 "")]
  else [features2.map (fun x => x.getD 1 "")]

/-- `ExportToExcel.make_object_file`.  Note the source's handling of an
abandoned column selection: `user_filter_columns` returns `None` and the
very next line, `features = [x.split(':') for x in features]`, iterates
over it — a `TypeError`, not a graceful abort. -/
def make_object_file (prefs : Prefs) (mod : ExportToExcel)
    (frame : Option Picker) (m : Measurements) (object_names : List String)
    (file_name : String) (image_set_indexes : List Nat) : WriteResult :=
  let full := make_full_filename prefs mod.prepend_output_filename m
    file_name (some (image_set_indexes.headD 0))
  let features := objectFileFeatures mod m object_names
  match user_filter_columns mod.pick_columns mod.excel_limits frame
      ("Select columns for " ++ full)
      (features.map (fun x => x.1 ++ ":" ++ x.2)) with
  | none => .pyerror "TypeError: NoneType object is not iterable"
  | some cols =>
    let features2 := objectFileSplitFeatures cols
    .written { name := full,
               content := .table (objectFileHeaders object_names features2)
                 (image_set_indexes.flatMap (fun img_index =>
                   objectRowsForImage m features2 object_names img_index)) }

/-- `ExportToExcel.run_objects`: the experiment unit writes one file;
otherwise the record set is grouped by the metadata tags embedded in the
file name and one per-image or object file is written per group. -/
def run_objects (prefs : Prefs) (mod : ExportToExcel) (frame : Option Picker)
    (m : Measurements) (object_names : List String) (file_name : String) :
    List WriteResult :=
  if object_names = [EXPERIMENT] then
    [make_experiment_file prefs mod m file_name]
  else
    (group_by_metadata m (find_metadata_tokens file_name)).map
      (fun metadata_group =>
        if object_names = [IMAGE] then
          make_image_file prefs mod frame m file_name metadata_group.indexes
        else
          make_object_file prefs mod frame m object_names file_name
            metadata_group.indexes)

/-- An uncaught Python exception propagates out of `run`, so the results
after the first `pyerror` never happen. -/
def stopAtError : List WriteResult → List WriteResult
  | [] => []
  | r :: rest =>
    match r with
    | .pyerror e => [.pyerror e]
    | r => r :: stopAtError rest

/-- `ExportToExcel.run` on the last cycle: write each collected output
unit in order; an uncaught exception aborts the remaining ones. -/
def runExport (prefs : Prefs) (mod : ExportToExcel) (frame : Option Picker)
    (m : Measurements) : List WriteResult :=
  stopAtError ((runUnits mod.object_groups).flatMap (fun u =>
    run_objects prefs mod frame m u.1 u.2))

/-! ## Claim C4 -/

theorem objectRows_length (m : Measurements) (features : List (List String))
    (object_names : List String) (img_index : Nat) :
    (objectRowsForImage m features object_names img_index).length =
      objectCount m object_names img_index := by
  unfold objectRowsForImage
  rw [List.length_map, List.length_range]

theorem objectRows_cell (m : Measurements) (features : List (List String))
    (object_names : List String) (img_index : Nat) (r j : Nat)
    (e : List String)
    (hr : r < objectCount m object_names img_index)
    (hjs : features[j]? = some e) :
    ((objectRowsForImage m features object_names img_index).getD r []).getD
        j PyVal.nan =
      (objectColumn m (objectCount m object_names img_index) img_index
        (e.getD 0 "") (e.getD 1 "")).getD r PyVal.nan := by
  have houter : (objectRowsForImage m features object_names img_index).getD
      r [] =
      (features.map (fun x => objectColumn m
        (objectCount m object_names img_index) img_index
        (x.getD 0 "") (x.getD 1 ""))).map
        (fun column => column.getD r PyVal.nan) := by
    show ((List.range (objectCount m object_names img_index)).map
        (fun obj_index =>
          (features.map (fun x => objectColumn m
            (objectCount m object_names img_index) img_index
            (x.getD 0 "") (x.getD 1 ""))).map
            (fun column => column.getD obj_index PyVal.nan))).getD r [] = _
    rw [List.getD_eq_getElem?_getD, List.getElem?_map _ _ r,
      List.getElem?_range hr]
    rfl
  rw [houter, List.getD_eq_getElem?_getD, List.getElem?_map _ _ j,
    List.getElem?_map _ _ j, hjs]
  simp

/-- C4: in a merged-object unit, the rows emitted for one image number
exactly the maximum entity count for that image; a per-object cell whose
row index reaches or passes the owning entity's own object count is the
explicit missing marker `np.NAN` — never zero — and an image-level
feature's value is repeated on every object row of the image. -/
theorem c4_merged_object_rows (m : Measurements)
    (features : List (List String)) (object_names : List String)
    (img_index : Nat) :
    (objectRowsForImage m features object_names img_index).length =
      objectCount m object_names img_index ∧
    (∀ (j : Nat) (oname fname : String) (cnt : Int) (r : Nat),
      features.getD j [] = [oname, fname] →
      oname ≠ IMAGE → fname ≠ IMAGE_NUMBER → fname ≠ OBJECT_NUMBER →
      m.img_meas ("Count_" ++ oname) img_index = PyVal.int cnt →
      (m.obj_meas oname fname img_index).length = cnt.toNat →
      cnt.toNat ≤ r → r < objectCount m object_names img_index →
      ((objectRowsForImage m features object_names img_index).getD r
        []).getD j PyVal.nan = PyVal.nan) ∧
    PyVal.nan ≠ PyVal.int 0 ∧
    (∀ (j : Nat) (fname : String) (r : Nat),
      features.getD j [] = [IMAGE, fname] →
      fname ≠ IMAGE_NUMBER → fname ≠ OBJECT_NUMBER →
      r < objectCount m object_names img_index →
      ((objectRowsForImage m features object_names img_index).getD r
        []).getD j PyVal.nan = m.img_meas fname img_index) := by
  have hmem : ∀ (j : Nat) (e : List String), features.getD j [] = e →
      e ≠ [] → features[j]? = some e := by
    intro j e hfeat hne
    rw [List.getD_eq_getElem?_getD] at hfeat
    cases hx : features[j]? with
    | none =>
      rw [hx] at hfeat
      exact absurd hfeat.symm (by simpa using hne)
    | some e' =>
      rw [hx] at hfeat
      simp at hfeat
      rw [hfeat]
  refine ⟨objectRows_length m features object_names img_index, ?_, by decide,
    ?_⟩
  · intro j oname fname cnt r hfeat honame hfn1 hfn2 hcnt hlen hge hr
    rw [objectRows_cell m features object_names img_index r j
      [oname, fname] hr (hmem j [oname, fname] hfeat (by simp))]
    show (objectColumn m (objectCount m object_names img_index) img_index
      oname fname).getD r PyVal.nan = PyVal.nan
    unfold objectColumn
    rw [if_neg hfn1, if_neg hfn2, if_neg honame, List.getD_eq_getElem?_getD,
      List.getElem?_eq_none (by omega)]
    rfl
  · intro j fname r hfeat hfn1 hfn2 hr
    rw [objectRows_cell m features object_names img_index r j
      [IMAGE, fname] hr (hmem j [IMAGE, fname] hfeat (by simp))]
    show (objectColumn m (objectCount m object_names img_index) img_index
      IMAGE fname).getD r PyVal.nan = m.img_meas fname img_index
    unfold objectColumn
    rw [if_neg hfn1, if_neg hfn2, if_pos rfl, List.getD_eq_getElem?_getD,
      List.getElem?_replicate]
    simp [hr]

/-- Witness store for C4 — the spec's example: entity `X` with 3 objects,
entity `Y` with 2 objects in the same image. -/
def c4Meas : Measurements :=
  { feature_names := fun _ => [],
    img_meas := fun f _ =>
      if f = "Count_X" then .int 3
      else if f = "Count_Y" then .int 2
      else .str "imgval",
    obj_meas := fun o f _ =>
      if o = "X" ∧ f = "FX" then [.int 11, .int 12, .int 13]
      else if o = "Y" ∧ f = "FY" then [.int 21, .int 22]
      else [],
    agg := fun _ => [],
    exp_meas := fun _ => [],
    metadata_of := fun _ _ => none,
    indexes := [0] }

def c4Features : List (List String) := [["X", "FX"], ["Y", "FY"]]

theorem c4_merged_object_rows_witness :
    (objectRowsForImage c4Meas c4Features ["X", "Y"] 0).length = 3 ∧
    ((objectRowsForImage c4Meas c4Features ["X", "Y"] 0).getD 2 []).getD 1
      PyVal.nan = PyVal.nan ∧
    PyVal.nan ≠ PyVal.int 0 := by
  have h := c4_merged_object_rows c4Meas c4Features ["X", "Y"] 0
  refine ⟨?_, ?_, h.2.2.1⟩
  · rw [h.1]; decide
  · exact h.2.1 1 "Y" "FY" 2 2 (by decide) (by decide) (by decide) (by decide)
      (by decide) (by decide) (by decide) (by decide)

/-! ## Claim C8 -/

def c8Prefs : Prefs :=
  { get_absolute_path := fun s => s, output_file_name := "OUT.mat" }

/-- Configuration for C8: column picking enabled, one object unit followed
by one per-image unit. -/
def c8Mod : ExportToExcel :=
  { delimiter := ",", prepend_output_filename := false,
    add_metadata := false, add_indexes := false, excel_limits := false,
    pick_columns := true,
    object_groups :=
      [{ object_name := "Nuclei", previous_file := false,
         file_name := "obj.csv" },
       { object_name := IMAGE, previous_file := false,
         file_name := "img.csv" }] }

def c8Meas : Measurements :=
  { feature_names := fun e =>
      if e = IMAGE then ["F"] else if e = "Nuclei" then ["A"] else [],
    img_meas := fun f _ => if f = "Count_Nuclei" then .int 1 else .int 7,
    obj_meas := fun _ _ _ => [.int 5],
    agg := fun _ => [],
    exp_meas := fun _ => [],
    metadata_of := fun _ _ => none,
    indexes := [0] }

/-- The user abandoning the modal column-selection dialog. -/
def c8CancelPicker : Picker := fun _ _ => none

/-- C8 at the failing input: when the column picker signals "operation
abandoned", the per-image path returns without writing rows, but the
object path iterates over Python `None` (`[x.split(':') for x in
features]`) and raises `TypeError`, so the whole run stops and the
remaining output unit is never written; with the dialog bypassed the same
two units both get written. -/
theorem c8_abandoned_object_unit_raises :
    make_image_file c8Prefs c8Mod (some c8CancelPicker) c8Meas "img.csv"
        [0] = .abandoned "img.csv" ∧
    make_object_file c8Prefs c8Mod (some c8CancelPicker) c8Meas ["Nuclei"]
        "obj.csv" [0] =
      .pyerror "TypeError: NoneType object is not iterable" ∧
    runExport c8Prefs c8Mod (some c8CancelPicker) c8Meas =
      [.pyerror "TypeError: NoneType object is not iterable"] ∧
    (runExport c8Prefs { c8Mod with pick_columns := false }
      (some c8CancelPicker) c8Meas).length = 2 := by
  decide

/-! ## Claim C6 -/

/-- Substitution only reads the metadata at the template's own tokens: two
tag-value assignments that agree on every scanned token substitute
identically. -/
theorem substTokens_congr (md1 md2 : String → Option String) :
    ∀ (s : List Char) (st : ScanSt),
      (∀ t ∈ scanTokens s st, md1 t = md2 t) →
      substTokens md1 s st = substTokens md2 s st := by
  intro s
  induction s with
  | nil => intro st _; cases st <;> rfl
  | cons c rest ih =>
    intro st h
    cases st with
    | norm =>
      by_cases hc : c = '\\'
      · subst hc
        simp only [substTokens, if_pos rfl]
        exact ih .sawB (by simpa [scanTokens] using h)
      · simp only [substTokens, if_neg hc]
        exact congrArg (c :: ·) (ih .norm (by simpa [scanTokens, hc] using h))
    | sawB =>
      by_cases hg : c = 'g'
      · subst hg
        simp only [substTokens, if_pos rfl]
        exact ih .sawBG (by simpa [scanTokens] using h)
      · by_cases hc : c = '\\'
        · subst hc
          simp only [substTokens, if_neg hg, if_pos rfl]
          exact congrArg ('\\' :: ·)
            (ih .sawB (by simpa [scanTokens, hg] using h))
        · simp only [substTokens, if_neg hg, if_neg hc]
          exact congrArg (fun l => '\\' :: c :: l)
            (ih .norm (by simpa [scanTokens, hg, hc] using h))
    | sawBG =>
      by_cases hl : c = '<'
      · subst hl
        simp only [substTokens, if_pos rfl]
        exact ih (.inTag []) (by simpa [scanTokens] using h)
      · by_cases hc : c = '\\'
        · subst hc
          simp only [substTokens, if_neg hl, if_pos rfl]
          exact congrArg (fun l => '\\' :: 'g' :: l)
            (ih .sawB (by simpa [scanTokens, hl] using h))
        · simp only [substTokens, if_neg hl, if_neg hc]
          exact congrArg (fun l => '\\' :: 'g' :: c :: l)
            (ih .norm (by simpa [scanTokens, hl, hc] using h))
    | inTag acc =>
      by_cases hgt : c = '>'
      · subst hgt
        simp only [substTokens, if_pos rfl]
        have htag : md1 (⟨acc.reverse⟩ : String) = md2 (⟨acc.reverse⟩ : String) :=
          h _ (by simp [scanTokens])
        rw [htag,
          ih .norm (fun t ht => h t (by simp [scanTokens]; right; exact ht))]
        simp
      · simp only [substTokens, if_neg hgt]
        exact ih (.inTag (c :: acc)) (by simpa [scanTokens, hgt] using h)

/-- Two image sets with the same combination of values for a tag list
agree on the metadata value of every tag in the list. -/
theorem comboOf_determines (m : Measurements) :
    ∀ (tags : List String) (c : List String) (i i' : Nat),
      comboOf m tags i = some c → comboOf m tags i' = some c →
      ∀ t ∈ tags, m.metadata_of i t = m.metadata_of i' t := by
  intro tags
  induction tags with
  | nil => intro c i i' _ _ t ht; cases ht
  | cons t0 ts ih =>
    intro c i i' h1 h2 t ht
    unfold comboOf at h1 h2
    rw [List.mapM_cons] at h1 h2
    simp only [Option.pure_def, Option.bind_eq_bind, Option.bind_eq_some,
      Option.some.injEq] at h1 h2
    obtain ⟨v1, hv1, vs1, hvs1, hc1⟩ := h1
    obtain ⟨v2, hv2, vs2, hvs2, hc2⟩ := h2
    rw [← hc2] at hc1
    injection hc1 with hv hvs
    rcases List.mem_cons.1 ht with hteq | htmem
    · subst hteq
      rw [hv1, hv2, hv]
    · exact ih vs1 i i' hvs1 (by rw [hvs]; exact hvs2) t htmem

/-- All image sets of one metadata partition substitute the template to
the same file name. -/
theorem apply_metadata_eq_of_same_combo (m : Measurements)
    (file_name : String) (i i' : Nat) (c : List String)
    (h1 : comboOf m (find_metadata_tokens file_name) i = some c)
    (h2 : comboOf m (find_metadata_tokens file_name) i' = some c) :
    apply_metadata m file_name i = apply_metadata m file_name i' := by
  unfold apply_metadata
  exact congrArg (fun l => (⟨l⟩ : String))
    (substTokens_congr _ _ file_name.toList .norm
      (fun t ht => comboOf_determines m _ c i i' h1 h2 t ht))

theorem filterMap_of_const_some {α β : Type} (f : α → Option β) (b : β)
    (h : ∀ a, f a = some b) :
    ∀ l : List α, l.filterMap f = l.map (fun _ => b) := by
  intro l
  induction l with
  | nil => rfl
  | cons a as ih => rw [List.filterMap_cons, h a, ih, List.map_cons]

theorem dedup_of_const {α β : Type} [DecidableEq β] (b : β) :
    ∀ l : List α, l ≠ [] → (l.map (fun _ => b)).dedup = [b] := by
  intro l
  induction l with
  | nil => intro h; exact absurd rfl h
  | cons a as ih =>
    intro _
    cases has : as with
    | nil => simp
    | cons a2 as2 =>
      rw [← has, List.map_cons, List.dedup_cons_of_mem (by simp [has]),
        ih (by simp [has])]

/-- C6: with no interactive picker, a non-experiment unit writes exactly
one file per metadata group; the (spec-modelled) grouping yields pairwise
distinct tag-value combinations, each group being exactly — and
nonemptily — the records carrying its combination, with every record of a
group substituting the template to the same name; each object file's name
comes from the template applied to its own partition and its rows come
from its own partition's image sets only; a template without placeholders
yields a single file whose group covers all records. -/
theorem c6_metadata_file_splitting (prefs : Prefs) (mod : ExportToExcel)
    (m : Measurements) (object_names : List String) (file_name : String)
    (hne : object_names ≠ [EXPERIMENT]) (hni : object_names ≠ [IMAGE]) :
    run_objects prefs mod none m object_names file_name =
      (group_by_metadata m (find_metadata_tokens file_name)).map
        (fun metadata_group => make_object_file prefs mod none m
          object_names file_name metadata_group.indexes) ∧
    (run_objects prefs mod none m object_names file_name).length =
      ((m.indexes.filterMap
        (comboOf m (find_metadata_tokens file_name))).dedup).length ∧
    ((m.indexes.filterMap
      (comboOf m (find_metadata_tokens file_name))).dedup).Nodup ∧
    (∀ grp ∈ group_by_metadata m (find_metadata_tokens file_name),
      ∃ c, grp.combo = (find_metadata_tokens file_name).zip c ∧
        grp.indexes = m.indexes.filter
          (fun i => comboOf m (find_metadata_tokens file_name) i = some c) ∧
        grp.indexes ≠ [] ∧
        (∀ i ∈ grp.indexes,
          comboOf m (find_metadata_tokens file_name) i = some c) ∧
        (∀ i ∈ grp.indexes, apply_metadata m file_name i =
          apply_metadata m file_name (grp.indexes.headD 0))) ∧
    (∀ indexes : List Nat,
      make_object_file prefs mod none m object_names file_name indexes =
        .written { name := make_full_filename prefs
                     mod.prepend_output_filename m file_name
                     (some (indexes.headD 0)),
                   content := OutContent.table
                     (objectFileHeaders object_names (objectFileSplitFeatures
                       ((objectFileFeatures mod m object_names).map
                         (fun x => x.1 ++ ":" ++ x.2))))
                     (indexes.flatMap (fun img_index => objectRowsForImage m
                       (objectFileSplitFeatures ((objectFileFeatures mod m
                         object_names).map (fun x => x.1 ++ ":" ++ x.2)))
                       object_names img_index)) }) ∧
    (find_metadata_tokens file_name = [] → m.indexes ≠ [] →
      (run_objects prefs mod none m object_names file_name).length = 1 ∧
      ∀ grp ∈ group_by_metadata m (find_metadata_tokens file_name),
        grp.indexes = m.indexes) := by
  have hmain : run_objects prefs mod none m object_names file_name =
      (group_by_metadata m (find_metadata_tokens file_name)).map
        (fun metadata_group => make_object_file prefs mod none m
          object_names file_name metadata_group.indexes) := by
    simp [run_objects, hne, hni]
  refine ⟨hmain, ?_, List.nodup_dedup _, ?_, fun indexes => rfl, ?_⟩
  · rw [hmain]
    simp [group_by_metadata]
  · intro grp hgrp
    unfold group_by_metadata at hgrp
    rw [List.mem_map] at hgrp
    obtain ⟨c, hc, hgrpeq⟩ := hgrp
    subst hgrpeq
    have hcomb : ∀ i ∈ m.indexes.filter
        (fun i => comboOf m (find_metadata_tokens file_name) i = some c),
        comboOf m (find_metadata_tokens file_name) i = some c := by
      intro i hi
      rw [List.mem_filter] at hi
      simpa using hi.2
    have hnonempty : m.indexes.filter
        (fun i => comboOf m (find_metadata_tokens file_name) i = some c)
        ≠ [] := by
      rw [List.mem_dedup, List.mem_filterMap] at hc
      obtain ⟨i, hi, hci⟩ := hc
      exact List.ne_nil_of_mem (a := i)
        (by rw [List.mem_filter]; exact ⟨hi, by simp [hci]⟩)
    have hhead : (m.indexes.filter
        (fun i => comboOf m (find_metadata_tokens file_name) i
          = some c)).headD 0 ∈ m.indexes.filter
        (fun i => comboOf m (find_metadata_tokens file_name) i = some c) := by
      cases hl : m.indexes.filter
          (fun i => comboOf m (find_metadata_tokens file_name) i = some c)
        with
      | nil => exact absurd hl hnonempty
      | cons a as => simp
    refine ⟨c, rfl, rfl, hnonempty, hcomb, ?_⟩
    intro i hi
    exact apply_metadata_eq_of_same_combo m file_name i _ c
      (hcomb i hi) (hcomb _ hhead)
  · intro htok hind
    have hcombo : ∀ i : Nat,
        comboOf m (find_metadata_tokens file_name) i = some [] := by
      intro i
      rw [htok]
      rfl
    have hfm : m.indexes.filterMap
        (fun i => comboOf m (find_metadata_tokens file_name) i) =
        m.indexes.map (fun _ => ([] : List String)) :=
      filterMap_of_const_some _ _ hcombo m.indexes
    have hdedup : (m.indexes.filterMap
        (comboOf m (find_metadata_tokens file_name))).dedup
        = [([] : List String)] := by
      rw [show m.indexes.filterMap
          (comboOf m (find_metadata_tokens file_name)) =
          m.indexes.filterMap
            (fun i => comboOf m (find_metadata_tokens file_name) i) from rfl,
        hfm]
      exact dedup_of_const _ m.indexes hind
    constructor
    · rw [hmain]
      simp [group_by_metadata, hdedup]
    · intro grp hgrp
      unfold group_by_metadata at hgrp
      rw [hdedup] at hgrp
      rw [List.mem_map] at hgrp
      obtain ⟨c, hc, hgrpeq⟩ := hgrp
      rw [List.mem_singleton] at hc
      subst hc
      subst hgrpeq
      show m.indexes.filter _ = m.indexes
      rw [List.filter_eq_self]
      intro i _
      simp [hcombo i]

/-- Witness inputs for C6 — the spec's example: template
`plate\g<Plate>.csv` over two image sets with `Plate` values `A` and
`B`. -/
def c6Prefs : Prefs :=
  { get_absolute_path := fun s => s, output_file_name := "OUT.mat" }

def c6Mod : ExportToExcel :=
  { delimiter := ",", prepend_output_filename := false,
    add_metadata := false, add_indexes := false, excel_limits := false,
    pick_columns := false, object_groups := [] }

def c6Meas : Measurements :=
  { feature_names := fun e => if e = "Nuclei" then ["Area"] else [],
    img_meas := fun f _ => if f = "Count_Nuclei" then .int 1 else .int 0,
    obj_meas := fun _ _ _ => [.int 9],
    agg := fun _ => [],
    exp_meas := fun _ => [],
    metadata_of := fun i t =>
      if t = "Plate" then (if i = 0 then some "A" else some "B") else none,
    indexes := [0, 1] }

theorem c6_metadata_file_splitting_witness :
    (run_objects c6Prefs c6Mod none c6Meas ["Nuclei"]
      "plate\\g<Plate>.csv").length = 2 ∧
    apply_metadata c6Meas "plate\\g<Plate>.csv" 0 = "plateA.csv" ∧
    apply_metadata c6Meas "plate\\g<Plate>.csv" 1 = "plateB.csv" := by
  have h := c6_metadata_file_splitting c6Prefs c6Mod c6Meas ["Nuclei"]
    "plate\\g<Plate>.csv" (by decide) (by decide)
  refine ⟨?_, by decide, by decide⟩
  rw [h.2.1]
  decide
